import Mathlib

/-!
# Verification of the distribution-fitting toolkit

Shallow embedding of `src/distributionFitting.py`: the empirical
distribution builder, the three model density functions (discrete uniform,
beta binomial, Zipfian), the four goodness-of-fit metrics (chi-square,
R-square, RMSE, Kolmogorov-Smirnov) and the orchestrating
`distributionFitting` function.

Conventions of the embedding:
* Python floats are idealised as real numbers `ℝ`; exact real arithmetic
  stands in for IEEE doubles, so "sums to 1.0 within floating-point
  tolerance" becomes exact equality.
* The nonfinite float values (NaN and the infinities, produced by failed
  fits and by division by zero) are modelled by `Option ℝ` (`F` below),
  with `none` standing for "undefined / nonfinite"; the lifted arithmetic
  propagates `none` exactly as IEEE arithmetic propagates nonfinite values
  in this pipeline (no operation here maps a nonfinite back to a finite).
* `scipy.special.beta` is Γ(a)Γ(b)/Γ(a+b), `scipy.special.binom` is the
  Γ-quotient Γ(n+1)/(Γ(x+1)Γ(n−x+1)), and `scipy.special.zetac c` is
  ζ(c) − 1 (the Riemann zeta function minus one); they are embedded through
  Mathlib's `Real.Gamma` and `riemannZeta`.
* `scipy.optimize.curve_fit` is an external iterative solver; its outcome
  is passed to the orchestrator as an oracle argument (`none` = the
  `except:` failure branch was taken), which is exactly the interface the
  failure-policy and determinism claims quantify over.
-/

namespace DistFit

/-- `np.min(R)` for a sample list (the empty case is unreachable in the
pipeline: `np.min` of an empty list raises and the whole call aborts). -/
def sampleMin : List ℤ → ℤ
  | [] => 0
  | h :: t => t.foldl min h

/-- `np.max(R)` for a sample list (empty case unreachable, as for `sampleMin`). -/
def sampleMax : List ℤ → ℤ
  | [] => 0
  | h :: t => t.foldl max h

/-- `xs = list(np.arange(np.min(R), np.max(R)+1))`: the support, the full
contiguous integer range from the sample minimum to the sample maximum. -/
def support (R : List ℤ) : List ℤ :=
  (List.range (sampleMax R - sampleMin R + 1).toNat).map (fun i : ℕ => sampleMin R + (i : ℤ))

/-- The counting loop `for i in range(0,len(R)): fr[xs.index(R[i])] += 1`
starting from `fr = [0]*len(xs)`. -/
def freq (xs : List ℤ) (R : List ℤ) : List ℕ :=
  R.foldl (fun fr r => fr.set (xs.indexOf r) (fr.getD (xs.indexOf r) 0 + 1))
    (List.replicate xs.length 0)

/-- `p = [x/N for x in fr]`: the empirical probability vector. -/
noncomputable def probs (R : List ℤ) : List ℝ :=
  (freq (support R) R).map (fun k : ℕ => (k : ℝ) / (R.length : ℝ))

/-- Embedding of `scipy.special.beta`, the Euler beta function
`B(a, b) = Γ(a)·Γ(b)/Γ(a+b)`. -/
noncomputable def BetaFn (a b : ℝ) : ℝ := Real.Gamma a * Real.Gamma b / Real.Gamma (a + b)

/-- Embedding of `scipy.special.binom`, the generalised binomial coefficient
`C(n, x) = Γ(n+1)/(Γ(x+1)·Γ(n−x+1))` (0 at the poles, matching scipy's
limiting convention, via Lean's division by zero). -/
noncomputable def binomCoef (n x : ℝ) : ℝ :=
  Real.Gamma (n + 1) / (Real.Gamma (x + 1) * Real.Gamma (n - x + 1))

/-- The discrete uniform density `uniDist(x, n) = [1/n]*len(x)`. -/
noncomputable def uniDist (x : List ℝ) (n : ℕ) : List ℝ :=
  List.replicate x.length (1 / (n : ℝ))

/-- The beta-binomial evaluator `betaBinom(x, a, b)`:
`n = len(x)` and `y = binom(n, x)*beta(a+x, b+n-x)/beta(a, b)` elementwise,
applied to the entries of `x` themselves. -/
noncomputable def betaBinom (x : List ℝ) (a b : ℝ) : List ℝ :=
  x.map (fun xi => binomCoef (x.length : ℝ) xi *
    BetaFn (a + xi) (b + (x.length : ℝ) - xi) / BetaFn a b)

/-- The extended beta-binomial evaluator `betaBinomN(x, n, a, b)` with an
explicit `n` decoupled from `len(x)`. -/
noncomputable def betaBinomN (x : List ℝ) (n a b : ℝ) : List ℝ :=
  x.map (fun xi => binomCoef n xi * BetaFn (a + xi) (b + n - xi) / BetaFn a b)

/-- Modelled from the spec claim for C2 (for comparison only, not from the
source): the beta-binomial formula evaluated at the rank offsets `0..n-1`
of the support instead of at the raw support values. -/
noncomputable def betaBinomOffsets (x : List ℝ) (a b : ℝ) : List ℝ :=
  (List.range x.length).map (fun i : ℕ => binomCoef (x.length : ℝ) (i : ℝ) *
    BetaFn (a + (i : ℝ)) (b + (x.length : ℝ) - (i : ℝ)) / BetaFn a b)

/-- The real part of Mathlib's analytically continued Riemann zeta function:
the value scipy's zeta machinery approximates at a real argument. -/
noncomputable def realZeta (c : ℝ) : ℝ := (riemannZeta (c : ℂ)).re

/-- Embedding of `scipy.special.zetac`: the COMPLEMENT of the Riemann zeta
function, `zetac(c) = ζ(c) − 1`. -/
noncomputable def zetac (c : ℝ) : ℝ := realZeta c - 1

/-- The Zipfian evaluator `zipfDist(x, c) = [xx**(-1*c) for xx in x]/zetac(c)`:
note the normaliser the code divides by is `zetac(c) = ζ(c) − 1`, not `ζ(c)`. -/
noncomputable def zipfDist (x : List ℝ) (c : ℝ) : List ℝ :=
  x.map (fun xx => xx ^ (-1 * c) / zetac c)

/-- Values of the float pipeline: `some r` is a finite double idealised as
the real `r`; `none` stands for a nonfinite double (NaN or an infinity),
the "undefined" state of the spec. No operation of this pipeline maps a
nonfinite value back to a finite one, so propagating `none` is a faithful
image of IEEE propagation here. -/
abbrev F : Type := Option ℝ

/-- Float addition, `none`-propagating. -/
def fadd (x y : F) : F := x.bind (fun a => y.map (fun b => a + b))

/-- Float subtraction, `none`-propagating. -/
def fsub (x y : F) : F := x.bind (fun a => y.map (fun b => a - b))

/-- Float multiplication, `none`-propagating (`0 * inf` and `0 * nan` are
both NaN, so `none` absorbs multiplicatively as well). -/
def fmul (x y : F) : F := x.bind (fun a => y.map (fun b => a * b))

/-- Float division: `none`-propagating, and division by zero (float `inf`
or NaN, nonfinite either way) is `none`. -/
noncomputable def fdiv (x y : F) : F :=
  x.bind (fun a => y.bind (fun b => if b = 0 then none else some (a / b)))

/-- Squaring, `x ** 2`. -/
def fsq (x : F) : F := fmul x x

/-- Absolute value, `none`-propagating. -/
def fabs (x : F) : F := x.map (fun a => |a|)

/-- Square root (arguments in this pipeline are sums of squares, hence
nonnegative), `none`-propagating. -/
noncomputable def fsqrt (x : F) : F := x.map Real.sqrt

/-- Binary maximum; `np.max` propagates NaN, so `none` absorbs. -/
def fmax (x y : F) : F := x.bind (fun a => y.map (fun b => max a b))

/-- Real power `xx ** e`, `none`-propagating. -/
noncomputable def frpow (x y : F) : F := x.bind (fun a => y.map (fun b => a ^ b))

/-- Summation of a float list (`np.sum`, or an accumulating loop). -/
def fsum (l : List F) : F := l.foldl fadd (some 0)

/-- Arithmetic mean `np.mean(l) = sum(l)/len(l)` (NaN on the empty list,
where numpy divides by zero). -/
noncomputable def meanF (l : List F) : F := fdiv (fsum l) (some (l.length : ℝ))

/-- Maximum of a float list: `np.max` (which raises on an empty array —
unreachable in this pipeline — and propagates NaN). -/
def maxF : List F → F
  | [] => none
  | h :: t => t.foldl fmax h

/-- Cumulative sums `np.cumsum`. -/
def cumsumF (l : List F) : List F := (l.scanl fadd (some 0)).tail

/-- The beta function lifted to float values. -/
noncomputable def betaF (a b : F) : F := a.bind (fun x => b.map (fun y => BetaFn x y))

/-- The beta-binomial evaluator as the orchestrator runs it: the parameters
may be NaN (`none`) after a failed fit, and the formula then propagates NaN
into every entry. -/
noncomputable def betaBinomF (x : List ℝ) (a b : F) : List F :=
  x.map (fun xi => fdiv
    (fmul (some (binomCoef (x.length : ℝ) xi))
      (betaF (fadd a (some xi)) (fsub (fadd b (some (x.length : ℝ))) (some xi))))
    (betaF a b))

/-- The Zipfian evaluator as the orchestrator runs it (parameter possibly
NaN after a failed fit). -/
noncomputable def zipfDistF (x : List ℝ) (c : F) : List F :=
  x.map (fun xx => fdiv (frpow (some xx) (fmul (some (-1)) c)) (c.map zetac))

/-- Chi-square: the loop `chi_sq += (O[i]-E[i])**2 / E[i]` over
`i in range(0, len(O))`, starting from 0. -/
noncomputable def chiSquare (O E : List F) : F :=
  (List.range O.length).foldl
    (fun acc i => fadd acc (fdiv (fsq (fsub (O.getD i none) (E.getD i none))) (E.getD i none)))
    (some 0)

/-- R-square `1 − sum(SSres)/sum(SStot)` with
`SSres = [(O[i]-E[i])**2 ...]` and `SStot = [(O[i]-mean(O))**2 ...]`. -/
noncomputable def RSquare (O E : List F) : F :=
  fsub (some 1)
    (fdiv (fsum ((List.range O.length).map
            (fun i => fsq (fsub (O.getD i none) (E.getD i none)))))
      (fsum ((List.range O.length).map
            (fun i => fsq (fsub (O.getD i none) (meanF O))))))

/-- Root mean square error `sqrt(mean([(O[i]-E[i])**2 ...]))`. -/
noncomputable def RMSE (O E : List F) : F :=
  fsqrt (meanF ((List.range O.length).map
    (fun i => fsq (fsub (O.getD i none) (E.getD i none)))))

/-- Kolmogorov-Smirnov statistic
`max([abs(cumsum(O)[i] - cumsum(E)[i]) ...])`. -/
noncomputable def KS (O E : List F) : F :=
  maxF ((List.range O.length).map
    (fun i => fabs (fsub ((cumsumF O).getD i none) ((cumsumF E).getD i none))))

/-- Sample mean `np.mean(R)`. -/
noncomputable def meanR (R : List ℤ) : ℝ :=
  (R.map (fun k : ℤ => (k : ℝ))).sum / (R.length : ℝ)

/-- Population variance `np.var(R)`. -/
noncomputable def varR (R : List ℤ) : ℝ :=
  (R.map (fun k : ℤ => ((k : ℝ) - meanR R) ^ 2)).sum / (R.length : ℝ)

/-- Population standard deviation `np.std(R)`. -/
noncomputable def stdR (R : List ℤ) : ℝ := Real.sqrt (varR R)

/-- Sample range `np.max(R) - np.min(R)`. -/
noncomputable def rangeR (R : List ℤ) : ℝ := ((sampleMax R - sampleMin R : ℤ) : ℝ)

/-- Linear-interpolation percentile, `np.percentile(R, q)` (the method
`scipy.stats.iqr` uses by default): index `h = (len-1)*q/100` into the
sorted data, interpolating between the neighbouring order statistics. -/
noncomputable def percentileR (R : List ℤ) (q : ℝ) : ℝ :=
  let s := (List.insertionSort (· ≤ ·) R).map (fun k : ℤ => (k : ℝ))
  let h : ℝ := ((s.length : ℝ) - 1) * q / 100
  let j : ℤ := ⌊h⌋
  let lo := s.getD j.toNat 0
  let hi := s.getD (j.toNat + 1) lo
  lo + (h - (j : ℝ)) * (hi - lo)

/-- Interquartile range `scipy.stats.iqr(R)`. -/
noncomputable def iqrR (R : List ℤ) : ℝ := percentileR R 75 - percentileR R 25

/-- Error taxonomy of the pipeline. The code aborts on an empty sample set
with an unhandled exception from `np.min([])`; the spec names this fatal
condition `InvalidInputError`. -/
inductive DFError where
  | invalidInput

/-- The complete-shaped result bundle `[basicStats, cell_data, fittingParams]`
the orchestrator returns: five basic statistics, the 4×3 metrics table and
the three fitted parameters (NaN where fitting failed). -/
structure FitResult where
  stats : List ℝ
  chis : List F
  Rs : List F
  RMSEs : List F
  KSs : List F
  fittingParams : List F

/-- The orchestrator `distributionFitting`, with the `curve_fit` outcomes
passed in as oracle arguments: `fitB`/`fitZ` are the optimiser's parameters
when it converges and `none` when it raises (the `except:` branches, which
substitute NaN for every parameter of that model and continue). File I/O,
printing and plotting are outside the embedded core. -/
noncomputable def distributionFitting (R : List ℤ) (fitB : Option (ℝ × ℝ))
    (fitZ : Option ℝ) : Except DFError FitResult :=
  if R = [] then .error .invalidInput
  else
    let xs := support R
    let xsR : List ℝ := xs.map (fun k : ℤ => (k : ℝ))
    let n := xs.length
    let p : List F := (probs R).map some
    let b1 : F × F := match fitB with
      | some ab => (some ab.1, some ab.2)
      | none => (none, none)
    let z1 : F := match fitZ with
      | some c => some c
      | none => none
    let Eu : List F := (uniDist xsR n).map some
    let Eb : List F := betaBinomF xsR b1.1 b1.2
    let Ez : List F := zipfDistF xsR z1
    Except.ok
      { stats := [meanR R, stdR R, rangeR R, varR R, iqrR R]
        chis := [chiSquare p Eu, chiSquare p Eb, chiSquare p Ez]
        Rs := [RSquare p Eu, RSquare p Eb, RSquare p Ez]
        RMSEs := [RMSE p Eu, RMSE p Eb, RMSE p Ez]
        KSs := [KS p Eu, KS p Eb, KS p Ez]
        fittingParams := [b1.1, b1.2, z1] }

lemma Gamma_three : Real.Gamma 3 = 2 := by
  have h := Real.Gamma_nat_eq_factorial 2
  have e : ((2 : ℕ) : ℝ) + 1 = 3 := by norm_num
  rw [e] at h
  rw [h]
  norm_num [Nat.factorial]

lemma Gamma_four : Real.Gamma 4 = 6 := by
  have h := Real.Gamma_nat_eq_factorial 3
  have e : ((3 : ℕ) : ℝ) + 1 = 4 := by norm_num
  rw [e] at h
  rw [h]
  norm_num [Nat.factorial]

lemma Gamma_five : Real.Gamma 5 = 24 := by
  have h := Real.Gamma_nat_eq_factorial 4
  have e : ((4 : ℕ) : ℝ) + 1 = 5 := by norm_num
  rw [e] at h
  rw [h]
  norm_num [Nat.factorial]

lemma Gamma_six : Real.Gamma 6 = 120 := by
  have h := Real.Gamma_nat_eq_factorial 5
  have e : ((5 : ℕ) : ℝ) + 1 = 6 := by norm_num
  rw [e] at h
  rw [h]
  norm_num [Nat.factorial]

lemma Gamma_neg_three : Real.Gamma (-3 : ℝ) = 0 := by
  have h := Real.Gamma_neg_nat_eq_zero 3
  have e : -((3 : ℕ) : ℝ) = -3 := by norm_num
  rw [e] at h
  exact h

lemma realZeta_two : realZeta 2 = Real.pi ^ 2 / 6 := by
  rw [realZeta]
  have e2 : ((2 : ℝ) : ℂ) = (2 : ℂ) := by norm_num
  rw [e2, riemannZeta_two]
  have : ((Real.pi : ℂ) ^ 2 / 6) = (((Real.pi ^ 2 / 6 : ℝ)) : ℂ) := by
    push_cast
    ring
  rw [this, Complex.ofReal_re]

lemma six_lt_pi_sq : (6 : ℝ) < Real.pi ^ 2 := by
  have h3 : (3 : ℝ) < Real.pi := Real.pi_gt_three
  nlinarith

lemma binomCoef_one_five : binomCoef (1 : ℝ) 5 = 0 := by
  rw [binomCoef]
  norm_num [Gamma_neg_three]

lemma fadd_none_left (y : F) : fadd none y = none := rfl

lemma fadd_none_right (x : F) : fadd x none = none := by cases x <;> rfl

lemma fadd_some_some (a b : ℝ) : fadd (some a) (some b) = some (a + b) := rfl

lemma fsub_some_some (a b : ℝ) : fsub (some a) (some b) = some (a - b) := rfl

lemma fsq_some (a : ℝ) : fsq (some a) = some (a * a) := rfl

lemma fdiv_some_some {b : ℝ} (a : ℝ) (hb : b ≠ 0) :
    fdiv (some a) (some b) = some (a / b) := by
  simp [fdiv, hb]

lemma fdiv_some_zero (a : ℝ) : fdiv (some a) (some 0) = none := by
  simp [fdiv]

lemma fmax_none_right (x : F) : fmax x none = none := by cases x <;> rfl

lemma fmax_some_some (a b : ℝ) : fmax (some a) (some b) = some (max a b) := rfl

lemma fabs_some (a : ℝ) : fabs (some a) = some |a| := rfl

lemma fabs_none : fabs none = none := rfl

lemma getD_map_some (l : List ℝ) (i : ℕ) (hi : i < l.length) :
    (l.map some).getD i none = some (l.getD i 0) := by
  rw [List.getD_eq_getElem?_getD, List.getElem?_map, List.getElem?_eq_getElem hi,
    List.getD_eq_getElem?_getD, List.getElem?_eq_getElem hi]
  rfl

lemma getD_mem_of_lt (l : List ℝ) (i : ℕ) (hi : i < l.length) : l.getD i 0 ∈ l := by
  rw [List.getD_eq_getElem?_getD, List.getElem?_eq_getElem hi]
  exact List.getElem_mem hi

lemma foldl_fadd_idx_acc_none (g : ℕ → F) (idxs : List ℕ) :
    idxs.foldl (fun acc i => fadd acc (g i)) none = none := by
  induction idxs with
  | nil => rfl
  | cons i t ih =>
    simp only [List.foldl_cons, fadd_none_left]
    exact ih

lemma foldl_fadd_idx_some (g : ℕ → F) (r : ℕ → ℝ) :
    ∀ (idxs : List ℕ), (∀ i ∈ idxs, g i = some (r i)) → ∀ s : ℝ,
      idxs.foldl (fun acc i => fadd acc (g i)) (some s) = some (s + (idxs.map r).sum) := by
  intro idxs
  induction idxs with
  | nil => intro _ s; simp
  | cons i t ih =>
    intro hg s
    simp only [List.foldl_cons, hg i (List.mem_cons_self i t), fadd_some_some]
    rw [ih (fun j hj => hg j (List.mem_cons_of_mem i hj)) (s + r i)]
    simp only [List.map_cons, List.sum_cons]
    congr 1
    ring

lemma foldl_fadd_idx_none_mem (g : ℕ → F) :
    ∀ (idxs : List ℕ) (acc : F), (∃ i ∈ idxs, g i = none) →
      idxs.foldl (fun acc i => fadd acc (g i)) acc = none := by
  intro idxs
  induction idxs with
  | nil =>
    rintro acc ⟨i, hi, _⟩
    simp at hi
  | cons i t ih =>
    rintro acc ⟨j, hj, hgj⟩
    rcases List.mem_cons.mp hj with rfl | hj
    · simp only [List.foldl_cons, hgj, fadd_none_right]
      exact foldl_fadd_idx_acc_none g t
    · simp only [List.foldl_cons]
      exact ih _ ⟨j, hj, hgj⟩

lemma foldl_fadd_elem_some : ∀ (l : List ℝ) (s : ℝ),
    (l.map some).foldl fadd (some s) = some (s + l.sum) := by
  intro l
  induction l with
  | nil => intro s; simp
  | cons x t ih =>
    intro s
    simp only [List.map_cons, List.foldl_cons, fadd_some_some]
    rw [ih (s + x)]
    simp only [List.sum_cons]
    congr 1
    ring

lemma fsum_map_some (l : List ℝ) : fsum (l.map some) = some l.sum := by
  simpa using foldl_fadd_elem_some l 0

lemma scanl_fadd_map_some : ∀ (l : List ℝ) (a : ℝ),
    (l.map some).scanl fadd (some a) = (l.scanl (fun x y => x + y) a).map some := by
  intro l
  induction l with
  | nil => intro a; rfl
  | cons x t ih =>
    intro a
    simp only [List.map_cons, List.scanl_cons, fadd_some_some]
    rw [ih (a + x)]
    rfl

lemma cumsumF_map_some (l : List ℝ) :
    cumsumF (l.map some) = ((l.scanl (fun x y => x + y) 0).tail).map some := by
  rw [cumsumF, scanl_fadd_map_some, ← List.map_tail]

lemma length_scanl_tail (l : List ℝ) :
    ((l.scanl (fun x y => x + y) 0).tail).length = l.length := by
  simp [List.length_scanl]

lemma foldl_fmax_map_some : ∀ (t : List ℝ) (a : ℝ),
    (t.map some).foldl fmax (some a) = some (t.foldl max a) := by
  intro t
  induction t with
  | nil => intro a; rfl
  | cons x s ih =>
    intro a
    simp only [List.map_cons, List.foldl_cons, fmax_some_some]
    exact ih (max a x)

lemma foldl_max_mem : ∀ (t : List ℝ) (a : ℝ), t.foldl max a = a ∨ t.foldl max a ∈ t := by
  intro t
  induction t with
  | nil => intro a; exact Or.inl rfl
  | cons x s ih =>
    intro a
    simp only [List.foldl_cons]
    rcases ih (max a x) with h | h
    · rw [h]
      rcases max_choice a x with h2 | h2
      · exact Or.inl h2
      · refine Or.inr ?_
        rw [h2]
        exact List.mem_cons_self x s
    · exact Or.inr (List.mem_cons_of_mem x h)

lemma maxF_map_some_mem (l : List ℝ) (hl : l ≠ []) :
    ∃ k, maxF (l.map some) = some k ∧ k ∈ l := by
  cases l with
  | nil => exact absurd rfl hl
  | cons x t =>
    refine ⟨t.foldl max x, ?_, ?_⟩
    · simp only [List.map_cons, maxF]
      exact foldl_fmax_map_some t x
    · rcases foldl_max_mem t x with h | h
      · rw [h]
        exact List.mem_cons_self x t
      · exact List.mem_cons_of_mem x h

lemma fdiv_zero_right (x : F) : fdiv x (some 0) = none := by
  cases x <;> simp [fdiv]

lemma meanF_map_some (l : List ℝ) (hl : l.length ≠ 0) :
    meanF (l.map some) = some (l.sum / (l.length : ℝ)) := by
  rw [meanF, fsum_map_some]
  simp only [List.length_map]
  exact fdiv_some_some _ (Nat.cast_ne_zero.mpr hl)

lemma chiSquare_map_some_of_ne_zero (O E : List ℝ) (hlen : O.length = E.length)
    (hE : ∀ e ∈ E, e ≠ 0) :
    chiSquare (O.map some) (E.map some) =
      some (((List.range O.length).map
        (fun i => (O.getD i 0 - E.getD i 0) ^ 2 / E.getD i 0)).sum) := by
  rw [chiSquare]
  simp only [List.length_map]
  have hg : ∀ i ∈ List.range O.length,
      fdiv (fsq (fsub ((O.map some).getD i none) ((E.map some).getD i none)))
        ((E.map some).getD i none)
        = some ((O.getD i 0 - E.getD i 0) ^ 2 / E.getD i 0) := by
    intro i hi
    have hiO : i < O.length := List.mem_range.mp hi
    have hiE : i < E.length := hlen ▸ hiO
    rw [getD_map_some O i hiO, getD_map_some E i hiE, fsub_some_some, fsq_some,
      fdiv_some_some _ (hE _ (getD_mem_of_lt E i hiE))]
    congr 1
    rw [pow_two]
  have h := foldl_fadd_idx_some
    (fun i => fdiv (fsq (fsub ((O.map some).getD i none) ((E.map some).getD i none)))
      ((E.map some).getD i none))
    (fun i => (O.getD i 0 - E.getD i 0) ^ 2 / E.getD i 0)
    (List.range O.length) hg 0
  rw [zero_add] at h
  exact h

lemma chiSquare_map_some_of_zero (O E : List ℝ) (hlen : O.length = E.length)
    (hE : ∃ e ∈ E, e = 0) :
    chiSquare (O.map some) (E.map some) = none := by
  rw [chiSquare]
  simp only [List.length_map]
  obtain ⟨e, heE, he0⟩ := hE
  obtain ⟨j, hj, hEj⟩ := List.getElem_of_mem heE
  have hjO : j < O.length := by omega
  refine foldl_fadd_idx_none_mem
    (fun i => fdiv (fsq (fsub ((O.map some).getD i none) ((E.map some).getD i none)))
      ((E.map some).getD i none))
    (List.range O.length) (some 0) ⟨j, List.mem_range.mpr hjO, ?_⟩
  have hgd : E.getD j 0 = 0 := by
    rw [List.getD_eq_getElem?_getD, List.getElem?_eq_getElem hj]
    simpa using hEj.trans he0
  show fdiv (fsq (fsub ((List.map some O).getD j none) ((List.map some E).getD j none)))
      ((List.map some E).getD j none) = none
  rw [getD_map_some E j hj, hgd]
  exact fdiv_zero_right _

lemma RMSE_map_some (O E : List ℝ) (hlen : O.length = E.length) (hO : O ≠ []) :
    RMSE (O.map some) (E.map some) =
      some (Real.sqrt ((((List.range O.length).map
        (fun i => (O.getD i 0 - E.getD i 0) ^ 2)).sum) / (O.length : ℝ))) := by
  rw [RMSE]
  simp only [List.length_map]
  have hmap : (List.range O.length).map
      (fun i => fsq (fsub ((O.map some).getD i none) ((E.map some).getD i none)))
      = ((List.range O.length).map
          (fun i => (O.getD i 0 - E.getD i 0) ^ 2)).map some := by
    rw [List.map_map]
    refine List.map_congr_left ?_
    intro i hi
    have hiO : i < O.length := List.mem_range.mp hi
    have hiE : i < E.length := hlen ▸ hiO
    rw [getD_map_some O i hiO, getD_map_some E i hiE, fsub_some_some, fsq_some]
    simp only [Function.comp_apply]
    congr 1
    rw [pow_two]
  rw [hmap, meanF_map_some _ (by simpa using fun h => hO (List.length_eq_zero.mp h))]
  simp only [List.length_map, List.length_range]
  rfl

lemma KS_map_some (O E : List ℝ) (hlen : O.length = E.length) (hO : O ≠ []) :
    ∃ k, KS (O.map some) (E.map some) = some k ∧ 0 ≤ k := by
  rw [KS]
  simp only [List.length_map]
  have hmap : (List.range O.length).map
      (fun i => fabs (fsub ((cumsumF (O.map some)).getD i none)
        ((cumsumF (E.map some)).getD i none)))
      = ((List.range O.length).map
          (fun i => |((O.scanl (fun x y => x + y) 0).tail).getD i 0 -
            ((E.scanl (fun x y => x + y) 0).tail).getD i 0|)).map some := by
    rw [List.map_map]
    refine List.map_congr_left ?_
    intro i hi
    have hiO : i < O.length := List.mem_range.mp hi
    rw [cumsumF_map_some O, cumsumF_map_some E,
      getD_map_some _ i (by rw [length_scanl_tail]; exact hiO),
      getD_map_some _ i (by rw [length_scanl_tail]; omega),
      fsub_some_some, fabs_some]
    rfl
  rw [hmap]
  have hlen0 : O.length ≠ 0 := fun h => hO (List.length_eq_zero.mp h)
  have hne : ((List.range O.length).map
      (fun i => |((O.scanl (fun x y => x + y) 0).tail).getD i 0 -
        ((E.scanl (fun x y => x + y) 0).tail).getD i 0|)) ≠ [] := by
    intro h
    have h2 := congrArg List.length h
    simp at h2
    exact hO h2
  obtain ⟨k, hk, hkmem⟩ := maxF_map_some_mem _ hne
  refine ⟨k, hk, ?_⟩
  rcases List.mem_map.mp hkmem with ⟨i, _, rfl⟩
  exact abs_nonneg _

lemma list_sum_eq_zero_iff (l : List ℝ) (h : ∀ x ∈ l, 0 ≤ x) :
    l.sum = 0 ↔ ∀ x ∈ l, x = 0 := by
  induction l with
  | nil => simp
  | cons x t ih =>
    have hx : 0 ≤ x := h x (List.mem_cons_self x t)
    have ht : ∀ y ∈ t, 0 ≤ y := fun y hy => h y (List.mem_cons_of_mem x hy)
    have hts : 0 ≤ t.sum := List.sum_nonneg ht
    simp only [List.sum_cons, List.mem_cons]
    constructor
    · intro hsum
      have hx0 : x = 0 := by linarith
      have hts0 : t.sum = 0 := by linarith
      intro y hy
      rcases hy with rfl | hy
      · exact hx0
      · exact ((ih ht).mp hts0) y hy
    · intro hall
      rw [hall x (Or.inl rfl), (ih ht).mpr (fun y hy => hall y (Or.inr hy))]
      ring

lemma zipfDistF_none (x : List ℝ) :
    zipfDistF x none = List.replicate x.length none := by
  refine List.eq_replicate_iff.mpr ⟨by simp [zipfDistF], ?_⟩
  intro b hb
  rw [zipfDistF] at hb
  rcases List.mem_map.mp hb with ⟨xx, _, rfl⟩
  rfl

/-- C6: on the empty sample set the orchestrator fails fatally — no
statistics are derived and no result bundle is returned, only the fatal
`InvalidInputError` (in the code, `np.min([])` raises an unhandled
exception before anything is computed). -/
theorem C6_empty_input_fatal (fitB : Option (ℝ × ℝ)) (fitZ : Option ℝ) :
    distributionFitting [] fitB fitZ = Except.error DFError.invalidInput := by
  simp [distributionFitting]

/-- C9: the orchestrator is a deterministic (pure) function of the sample
set and the optimiser outcomes: two calls on the same immutable input with
a deterministic optimiser (identical outcomes) return identical basic
statistics, metrics tables and fitted parameters. -/
theorem C9_deterministic (R R' : List ℤ) (fitB fitB' : Option (ℝ × ℝ))
    (fitZ fitZ' : Option ℝ) (hR : R = R') (hB : fitB = fitB') (hZ : fitZ = fitZ') :
    distributionFitting R fitB fitZ = distributionFitting R' fitB' fitZ' := by
  rw [hR, hB, hZ]

/-- Witness for C9 at a concrete input. -/
theorem C9_deterministic_witness :
    distributionFitting [1,2,2] (some (1, 2)) (some 1) =
      distributionFitting [1,2,2] (some (1, 2)) (some 1) :=
  C9_deterministic [1,2,2] [1,2,2] (some (1, 2)) (some (1, 2)) (some 1) (some 1)
    rfl rfl rfl

/-- C10: the extended beta-binomial evaluator with the explicit `n` set to
`len(x)` agrees pointwise with the mandatory evaluator. -/
theorem C10_betaBinomN_refines (x : List ℝ) (a b : ℝ) :
    betaBinomN x (x.length : ℝ) a b = betaBinom x a b := rfl

/-- C2 (counterexample): the claim says the beta-binomial evaluator is
applied at the rank offsets `0..n-1` of the support; the code applies it at
the raw support values. On the support `[2, 3, 4]` with `(a, b) = (1, 2)`
the two disagree (first entry `1/5` versus `2/5`). -/
theorem C2_offsets_counterexample :
    betaBinom [2, 3, 4] 1 2 ≠ betaBinomOffsets [2, 3, 4] 1 2 := by
  intro h
  have h0 : (betaBinom [2, 3, 4] 1 2).headD 0 = (betaBinomOffsets [2, 3, 4] 1 2).headD 0 := by
    rw [h]
  have ha : (betaBinom [2, 3, 4] 1 2).headD 0 = 1 / 5 := by
    norm_num [betaBinom, binomCoef, BetaFn, Real.Gamma_one, Real.Gamma_two,
      Gamma_three, Gamma_four, Gamma_five, Gamma_six, Nat.factorial]
  have hb : (betaBinomOffsets [2, 3, 4] 1 2).headD 0 = 2 / 5 := by
    norm_num [betaBinomOffsets, binomCoef, BetaFn, Real.Gamma_one, Real.Gamma_two,
      Gamma_three, Gamma_four, Gamma_five, Gamma_six, Nat.factorial,
      show List.range 3 = [0, 1, 2] from rfl]
  rw [ha, hb] at h0
  norm_num at h0

/-- C2 (amended): the evaluator computes
`P(x) = C(n, x)·B(a+x, b+n−x)/B(a, b)` with `n` the support length, but it
is evaluated at the RAW integer support values, not at their rank offsets. -/
theorem C2_betaBinom_formula_amended (x : List ℝ) (a b : ℝ) (i : ℕ) (hi : i < x.length) :
    (betaBinom x a b).getD i 0 =
      binomCoef (x.length : ℝ) (x.getD i 0) *
        BetaFn (a + x.getD i 0) (b + (x.length : ℝ) - x.getD i 0) / BetaFn a b := by
  rw [betaBinom]
  rw [List.getD_eq_getElem?_getD, List.getElem?_map]
  rw [List.getElem?_eq_getElem hi]
  rw [List.getD_eq_getElem?_getD, List.getElem?_eq_getElem hi]
  rfl

/-- Witness for the amended C2 at the support `[2, 3, 4]`, index 0. -/
theorem C2_betaBinom_formula_witness :
    (0 < ([2, 3, 4] : List ℝ).length) ∧
    ((betaBinom [2, 3, 4] 1 2).getD 0 0 =
      binomCoef ((([2, 3, 4] : List ℝ).length : ℝ) ) (([2, 3, 4] : List ℝ).getD 0 0) *
        BetaFn (1 + ([2, 3, 4] : List ℝ).getD 0 0)
          (2 + ((([2, 3, 4] : List ℝ).length : ℝ)) - ([2, 3, 4] : List ℝ).getD 0 0) /
        BetaFn 1 2) :=
  ⟨by simp, C2_betaBinom_formula_amended [2, 3, 4] 1 2 0 (by simp)⟩

/-- C3 (code bug): the Zipfian evaluator is `x^(−c)` over the raw support
values as claimed, but it is divided by `zetac(c) = ζ(c) − 1` (scipy's
COMPLEMENT of the Riemann zeta function), not by `ζ(c)` as the claim and
the code's own docstring (`z ==> Riemann zeta function`, with the MathWorld
Zipf reference) state. At support `[1]` and `c = 2` the code returns
`1/(π²/6 − 1) ≈ 1.545` instead of `1/ζ(2) = 6/π² ≈ 0.608`. -/
theorem C3_zipf_normalizer_code_bug :
    zipfDist [(1 : ℝ)] 2 = [1 / (Real.pi ^ 2 / 6 - 1)] ∧
    zipfDist [(1 : ℝ)] 2 ≠ [1 / realZeta 2] := by
  have hz : zetac 2 = Real.pi ^ 2 / 6 - 1 := by rw [zetac, realZeta_two]
  have h1 : zipfDist [(1 : ℝ)] 2 = [1 / (Real.pi ^ 2 / 6 - 1)] := by
    simp [zipfDist, hz]
  refine ⟨h1, ?_⟩
  rw [h1, realZeta_two]
  intro heq
  simp only [List.cons.injEq, and_true] at heq
  have hpi := six_lt_pi_sq
  have hA1 : Real.pi ^ 2 / 6 - 1 ≠ 0 := by nlinarith
  have hA2 : Real.pi ^ 2 / 6 ≠ 0 := by nlinarith
  rw [div_eq_div_iff hA1 hA2] at heq
  nlinarith

/-- C5: chi-square equals `Σ (O_i − E_i)²/E_i` whenever every `E_i` is
nonzero, and when some `E_i = 0` the statistic is undefined (NaN/nonfinite,
modelled `none`) rather than guarded or fatal — while RMSE and KS on the
same two vectors are still defined. -/
theorem C5_chiSquare_zero_divisor (O E : List ℝ) (hlen : O.length = E.length) (hO : O ≠ []) :
    ((∀ e ∈ E, e ≠ 0) → chiSquare (O.map some) (E.map some) =
        some (((List.range O.length).map
          (fun i => (O.getD i 0 - E.getD i 0) ^ 2 / E.getD i 0)).sum)) ∧
    ((∃ e ∈ E, e = 0) → chiSquare (O.map some) (E.map some) = none ∧
        (∃ r, RMSE (O.map some) (E.map some) = some r) ∧
        (∃ k, KS (O.map some) (E.map some) = some k)) := by
  refine ⟨chiSquare_map_some_of_ne_zero O E hlen, ?_⟩
  intro hz
  refine ⟨chiSquare_map_some_of_zero O E hlen hz,
    ⟨_, RMSE_map_some O E hlen hO⟩, ?_⟩
  obtain ⟨k, hk, _⟩ := KS_map_some O E hlen hO
  exact ⟨k, hk⟩

/-- Witness for C5 at `O = [1, 2]`, `E = [1, 0]` (a zero expected entry). -/
theorem C5_chiSquare_zero_divisor_witness :
    (([1, 2] : List ℝ).length = ([1, 0] : List ℝ).length ∧ ([1, 2] : List ℝ) ≠ []) ∧
    (((∀ e ∈ ([1, 0] : List ℝ), e ≠ 0) →
        chiSquare (([1, 2] : List ℝ).map some) (([1, 0] : List ℝ).map some) =
          some (((List.range ([1, 2] : List ℝ).length).map
            (fun i => (([1, 2] : List ℝ).getD i 0 - ([1, 0] : List ℝ).getD i 0) ^ 2 /
              ([1, 0] : List ℝ).getD i 0)).sum)) ∧
      ((∃ e ∈ ([1, 0] : List ℝ), e = 0) →
        chiSquare (([1, 2] : List ℝ).map some) (([1, 0] : List ℝ).map some) = none ∧
          (∃ r, RMSE (([1, 2] : List ℝ).map some) (([1, 0] : List ℝ).map some) = some r) ∧
          (∃ k, KS (([1, 2] : List ℝ).map some) (([1, 0] : List ℝ).map some) = some k))) :=
  ⟨⟨rfl, by simp⟩, C5_chiSquare_zero_divisor [1, 2] [1, 0] rfl (by simp)⟩

/-- C7 (counterexample): the fitted/expected vectors are NOT always
probability vectors. For the one-point support `[5]` the beta-binomial
vector sums to 0 for EVERY admissible parameter pair (because
`binom(1, 5) = 0`), so no parameter value the optimiser could supply makes
it sum to 1. -/
theorem C7_probability_vector_counterexample :
    ¬ ∀ a b : ℝ, 0 ≤ a → a ≤ 1000 → 0 ≤ b → b ≤ 1000 →
        (betaBinom [(5 : ℝ)] a b).sum = 1 := by
  intro h
  have h5 := h 1 (1/2) (by norm_num) (by norm_num) (by norm_num) (by norm_num)
  rw [show (betaBinom [(5 : ℝ)] 1 (1/2)).sum = 0 from by
    simp [betaBinom, binomCoef_one_five]] at h5
  norm_num at h5

/-- C7 (amended): each of the three fitted vectors has length `n`, and the
discrete-uniform one is a genuine probability vector (entries `≥ 0`
summing to 1); the beta-binomial and Zipfian vectors need not sum to 1. -/
theorem C7_fitted_vectors_amended (xs : List ℝ) (a b c : ℝ) (hxs : xs ≠ []) :
    (uniDist xs xs.length).length = xs.length ∧
    (∀ q ∈ uniDist xs xs.length, 0 ≤ q) ∧
    (uniDist xs xs.length).sum = 1 ∧
    (betaBinom xs a b).length = xs.length ∧
    (zipfDist xs c).length = xs.length := by
  have hn : (xs.length : ℝ) ≠ 0 := by
    simpa using fun h => hxs (List.length_eq_zero.mp h)
  refine ⟨by simp [uniDist], ?_, ?_, by simp [betaBinom], by simp [zipfDist]⟩
  · intro q hq
    rw [uniDist] at hq
    rw [List.eq_of_mem_replicate hq]
    positivity
  · rw [uniDist, List.sum_replicate, nsmul_eq_mul]
    field_simp

/-- Witness for the amended C7 at the support `[1]`. -/
theorem C7_fitted_vectors_amended_witness :
    (([1] : List ℝ) ≠ []) ∧
    ((uniDist [1] ([1] : List ℝ).length).length = ([1] : List ℝ).length ∧
      (∀ q ∈ uniDist [1] ([1] : List ℝ).length, 0 ≤ q) ∧
      (uniDist [1] ([1] : List ℝ).length).sum = 1 ∧
      (betaBinom [1] 1 1).length = ([1] : List ℝ).length ∧
      (zipfDist [1] 1).length = ([1] : List ℝ).length) :=
  ⟨by simp, C7_fitted_vectors_amended [1] 1 1 1 (by simp)⟩

/-- C8: on any two equal-length (nonempty) finite vectors, RMSE and the
Kolmogorov-Smirnov statistic are defined and nonnegative, and RMSE is 0
exactly when the two vectors agree pointwise. -/
theorem C8_rmse_ks_nonneg (O E : List ℝ) (hlen : O.length = E.length) (hO : O ≠ []) :
    (∃ r, RMSE (O.map some) (E.map some) = some r ∧ 0 ≤ r ∧ (r = 0 ↔ O = E)) ∧
    (∃ k, KS (O.map some) (E.map some) = some k ∧ 0 ≤ k) := by
  refine ⟨?_, KS_map_some O E hlen hO⟩
  refine ⟨_, RMSE_map_some O E hlen hO, Real.sqrt_nonneg _, ?_⟩
  have hterms : ∀ x ∈ (List.range O.length).map
      (fun i => (O.getD i 0 - E.getD i 0) ^ 2), 0 ≤ x := by
    intro x hx
    rcases List.mem_map.mp hx with ⟨i, _, rfl⟩
    positivity
  have hS0 : 0 ≤ ((List.range O.length).map
      (fun i => (O.getD i 0 - E.getD i 0) ^ 2)).sum := List.sum_nonneg hterms
  have hlpos : 0 < O.length := List.length_pos.mpr hO
  have hn : (0:ℝ) < (O.length : ℝ) := by exact_mod_cast hlpos
  constructor
  · intro hr
    have hq0 : 0 ≤ ((List.range O.length).map
        (fun i => (O.getD i 0 - E.getD i 0) ^ 2)).sum / (O.length : ℝ) :=
      div_nonneg hS0 (le_of_lt hn)
    have hquot := Real.sqrt_eq_zero'.mp hr
    have hqz : ((List.range O.length).map
        (fun i => (O.getD i 0 - E.getD i 0) ^ 2)).sum / (O.length : ℝ) = 0 :=
      le_antisymm hquot hq0
    have hSz : ((List.range O.length).map
        (fun i => (O.getD i 0 - E.getD i 0) ^ 2)).sum = 0 := by
      rcases div_eq_zero_iff.mp hqz with h | h
      · exact h
      · exact absurd h (ne_of_gt hn)
    have hall := (list_sum_eq_zero_iff _ hterms).mp hSz
    refine List.ext_getElem hlen ?_
    intro i h1 h2
    have hx := hall _ (List.mem_map.mpr ⟨i, List.mem_range.mpr h1, rfl⟩)
    have hdiff : O.getD i 0 - E.getD i 0 = 0 :=
      (pow_eq_zero_iff (two_ne_zero)).mp hx
    have hOd : O.getD i 0 = O[i] := by
      rw [List.getD_eq_getElem?_getD, List.getElem?_eq_getElem h1]
      rfl
    have hEd : E.getD i 0 = E[i] := by
      rw [List.getD_eq_getElem?_getD, List.getElem?_eq_getElem h2]
      rfl
    rw [hOd, hEd] at hdiff
    linarith [sub_eq_zero.mp hdiff]
  · intro hOE
    subst hOE
    have hz : ((List.range O.length).map
        (fun i => (O.getD i 0 - O.getD i 0) ^ 2)).sum = 0 := by
      apply List.sum_eq_zero
      intro x hx
      rcases List.mem_map.mp hx with ⟨i, _, rfl⟩
      ring
    rw [hz, zero_div, Real.sqrt_zero]

/-- Witness for C8 at `O = [1, 2]`, `E = [3, 4]`. -/
theorem C8_rmse_ks_nonneg_witness :
    (([1, 2] : List ℝ).length = ([3, 4] : List ℝ).length ∧ ([1, 2] : List ℝ) ≠ []) ∧
    ((∃ r, RMSE (([1, 2] : List ℝ).map some) (([3, 4] : List ℝ).map some) = some r ∧
        0 ≤ r ∧ (r = 0 ↔ ([1, 2] : List ℝ) = [3, 4])) ∧
      (∃ k, KS (([1, 2] : List ℝ).map some) (([3, 4] : List ℝ).map some) = some k ∧ 0 ≤ k)) :=
  ⟨⟨rfl, by simp⟩, C8_rmse_ks_nonneg [1, 2] [3, 4] rfl (by simp)⟩

end DistFit
